import Mathlib

/-!
Verification of the BinB descrambling core of mindl (mindl/plugins/binb).

Strings are modelled as lists of character codes (`List Nat`, the value of
Python `ord`).  Python integers are modelled as `Nat` where the source only
ever produces non-negative values, and as `Int` where Python subtraction or
`%` on possibly-negative values matters (Python `%` with a positive modulus
is Euclidean remainder, i.e. `Int.emod`).
-/

namespace Mindl

/-! ### Stream cipher: `BinBApi._decrypt_descramble_data` (binb_api.py) -/

/-- Accumulation loop of `generate_key`: for each character at index `i`,
`res += ord(char) << (i % 16)`.  First argument is the running index. -/
def gk_loop : Nat → Nat → List Nat → Nat
  | _, acc, [] => acc
  | i, acc, ch :: rest => gk_loop (i + 1) (acc + (ch <<< (i % 16))) rest

/-- `generate_key(cid, k)` of `BinBApi._decrypt_descramble_data`:
seed over `cid + ":" + k` (58 is `ord(":")`), masked with `0x7FFFFFFF`,
with `res or 0x12345678` substituting the constant when the mask gives 0. -/
def generate_key (cid k : List Nat) : Nat :=
  let s := cid ++ 58 :: k
  let res := gk_loop 0 0 s &&& 0x7FFFFFFF
  if res = 0 then 0x12345678 else res

/-- One key step `key = (key >> 1) ^ (-(key & 1) & 0x48200004)`.
In Python, `-(key & 1) & 0x48200004` is `0x48200004` when the low bit is 1
(two's-complement `-1` AND the mask) and `0` otherwise. -/
def lfsr_advance (key : Nat) : Nat :=
  (key >>> 1) ^^^ (if key % 2 = 1 then 0x48200004 else 0)

/-- The decryption loop of `BinBApi._decrypt_descramble_data`: for each
ciphertext character, first advance the key, then emit
`chr(((ord(c) - 0x20 + key) % 0x5E) + 0x20)`.  The inner arithmetic is done
in `Int` (Python `%` on a possibly negative left operand); the result is
non-negative, so `Int.toNat` loses nothing. -/
def decrypt_stream (key : Nat) : List Nat → List Nat
  | [] => []
  | ch :: rest =>
    let key2 := lfsr_advance key
    let n : Int := ((ch : Int) - 0x20 + (key2 : Int)) % 0x5E + 0x20
    n.toNat :: decrypt_stream key2 rest

/-! ### Basic lemmas about the cipher -/

theorem gk_loop_eq_sum (l : List Nat) : ∀ (i acc : Nat),
    gk_loop i acc l = acc + ∑ j ∈ Finset.range l.length, l.getD j 0 <<< ((i + j) % 16) := by
  induction l with
  | nil => intro i acc; simp [gk_loop]
  | cons c rest ih =>
    intro i acc
    rw [gk_loop, ih]
    rw [List.length_cons, Finset.sum_range_succ']
    simp only [List.getD_cons_succ, List.getD_cons_zero]
    have hsh : ∀ j : ℕ, (i + 1 + j) % 16 = (i + (j + 1)) % 16 := by
      intro j; ring_nf
    rw [Finset.sum_congr rfl (fun j _ => by rw [hsh j])]
    simp only [Nat.add_zero]
    omega

theorem decrypt_stream_getD (ct : List Nat) : ∀ (key i : Nat), i < ct.length →
    (decrypt_stream key ct).getD i 0 =
      (((ct.getD i 0 : Int) - 0x20 + (lfsr_advance^[i + 1] key : Nat)) % 0x5E + 0x20).toNat := by
  induction ct with
  | nil => intro key i h; simp at h
  | cons c rest ih =>
    intro key i h
    cases i with
    | zero =>
      simp [decrypt_stream, Function.iterate_one]
    | succ n =>
      have hn : n < rest.length := by simpa using h
      rw [decrypt_stream]
      simp only [List.getD_cons_succ]
      rw [ih (lfsr_advance key) n hn]
      simp only [Function.iterate_succ_apply]

theorem decrypt_stream_length (ct : List Nat) : ∀ key : Nat,
    (decrypt_stream key ct).length = ct.length := by
  induction ct with
  | nil => intro key; rfl
  | cons c rest ih => intro key; simp [decrypt_stream, ih]

theorem decrypt_stream_mem_range (ct : List Nat) : ∀ (key : Nat),
    ∀ n ∈ decrypt_stream key ct, 0x20 ≤ n ∧ n < 0x7E := by
  induction ct with
  | nil => intro key n hn; simp [decrypt_stream] at hn
  | cons c rest ih =>
    intro key n hn
    rw [decrypt_stream, List.mem_cons] at hn
    rcases hn with h | h
    · subst h
      have h1 : (0 : Int) ≤ ((c : Int) - 0x20 + (lfsr_advance key : Int)) % 0x5E :=
        Int.emod_nonneg _ (by norm_num)
      have h2 : ((c : Int) - 0x20 + (lfsr_advance key : Int)) % 0x5E < 0x5E :=
        Int.emod_lt_of_pos _ (by norm_num)
      constructor
      · omega
      · omega
    · exact ih (lfsr_advance key) n h

/-! ### JSON values and `json.loads`

`_decrypt_descramble_data` ends with `return json.loads(res)`.  `json.loads`
is the Python standard library, not repository code.
Modelled from the spec: the decrypted key tables are JSON arrays of slot
strings ("valid JSON array of 8 slot strings"), so the model covers the
fragment the key material exercises: strings without escape sequences, and
arrays, with surrounding whitespace.  A string outside this fragment is not
modelled as parseable. -/

inductive Json where
  | str : List Nat → Json
  | arr : List Json → Json

/-- JSON insignificant whitespace (space, tab, line feed, carriage return). -/
def json_ws (c : Nat) : Bool := c = 0x20 || c = 9 || c = 10 || c = 13

def skip_ws (s : List Nat) : List Nat := s.dropWhile json_ws

/-- Scan a JSON string body after the opening quote (34 is a double quote,
92 a backslash; escapes are outside the modelled fragment).  Returns the
character codes of the string and the remainder after the closing quote. -/
def scan_str : List Nat → Option (List Nat × List Nat)
  | [] => none
  | 34 :: rest => some ([], rest)
  | 92 :: _ => none
  | c :: rest =>
    match scan_str rest with
    | some (s, r) => some (c :: s, r)
    | none => none

mutual

/-- Parse one JSON value (91 is a left bracket, 93 a right bracket). -/
def parse_val : Nat → List Nat → Option (Json × List Nat)
  | 0, _ => none
  | Nat.succ fuel, s =>
    match skip_ws s with
    | 34 :: rest =>
      match scan_str rest with
      | some (cs, r) => some (Json.str cs, r)
      | none => none
    | 91 :: rest =>
      match skip_ws rest with
      | 93 :: r2 => some (Json.arr [], r2)
      | r2 =>
        match parse_val fuel r2 with
        | none => none
        | some (v, r3) =>
          match parse_more fuel r3 with
          | none => none
          | some (vs, r4) => some (Json.arr (v :: vs), r4)
    | _ => none

/-- Parse the continuation of a JSON array: a comma (44) followed by a value,
or the closing bracket. -/
def parse_more : Nat → List Nat → Option (List Json × List Nat)
  | 0, _ => none
  | Nat.succ fuel, s =>
    match skip_ws s with
    | 44 :: rest =>
      match parse_val fuel rest with
      | none => none
      | some (v, r) =>
        match parse_more fuel r with
        | none => none
        | some (vs, r2) => some (v :: vs, r2)
    | 93 :: rest => some ([], rest)
    | _ => none

end

/-- Modelled from the spec: Python `json.loads`, restricted to the
array-of-strings fragment the key tables use.  `none` models a raised
`json.JSONDecodeError`. -/
def json_loads (s : List Nat) : Option Json :=
  match parse_val (s.length + 1) s with
  | some (v, rest) => if skip_ws rest = [] then some v else none
  | none => none

/-- `BinBApi._decrypt_descramble_data(ciphertext)`: stream-decrypt with the
key generated from `(cid, k)` and hand the result to `json.loads`. -/
def decrypt_descramble_data (ciphertext cid k : List Nat) : Option Json :=
  json_loads (decrypt_stream (generate_key cid k) ciphertext)

/-- Does `json.loads` output an array of exactly 8 strings?  (The check the
spec ascribes to `KeyTableCodec.decrypt`.) -/
def is_arr_8_str : Json → Bool
  | Json.arr l => l.length = 8 && l.all (fun v => match v with | Json.str _ => true | Json.arr _ => false)
  | Json.str _ => false

/-! ### The stream cipher step is invertible on printable plaintext -/

/-- Inverse of the per-character decryption step, used to build a ciphertext
with a prescribed decryption. -/
def encrypt_stream (key : Nat) : List Nat → List Nat
  | [] => []
  | n :: rest =>
    let key2 := lfsr_advance key
    let ch : Int := ((n : Int) - 0x20 - (key2 : Int)) % 0x5E + 0x20
    ch.toNat :: encrypt_stream key2 rest

theorem decrypt_stream_encrypt_stream (pt : List Nat) : ∀ key : Nat,
    (∀ n ∈ pt, 0x20 ≤ n ∧ n < 0x7E) →
    decrypt_stream key (encrypt_stream key pt) = pt := by
  induction pt with
  | nil => intro key _; rfl
  | cons n rest ih =>
    intro key hmem
    have hn : 0x20 ≤ n ∧ n < 0x7E := hmem n (List.mem_cons_self _ _)
    rw [encrypt_stream, decrypt_stream]
    congr 1
    · set key2 := lfsr_advance key
      have hnn : (0 : Int) ≤ ((n : Int) - 0x20 - (key2 : Int)) % 0x5E :=
        Int.emod_nonneg _ (by norm_num)
      rw [Int.toNat_of_nonneg (by omega)]
      have : ((((n : Int) - 0x20 - (key2 : Int)) % 0x5E + 0x20) - 0x20 + (key2 : Int)) % 0x5E
          = ((n : Int) - 0x20) % 0x5E := by
        rw [add_sub_cancel_right]
        rw [Int.add_emod, Int.emod_emod_of_dvd _ dvd_rfl]
        rw [← Int.add_emod]
        congr 1
        ring
      rw [this]
      rw [Int.emod_eq_of_lt (by omega) (by omega)]
      omega
    · exact ih (lfsr_advance key) (fun m hm => hmem m (List.mem_cons_of_mem _ hm))

/-! ### Claims C1, C9, C6 -/

/-- C1: `KeyTableCodec.decrypt` (i.e. `BinBApi._decrypt_descramble_data`) is a
deterministic function of `(ciphertext, cid, k)`: the seed is the sum of
`ord(char) << (i mod 16)` over `cid + ":" + k`, reduced mod `2^31` (the
`0x7FFFFFFF` mask), with `0x12345678` substituted for zero; the `i`-th output
character is `chr(((ord(c_i) - 0x20 + key_i) mod 0x5E) + 0x20)` where `key_i`
is the seed advanced `i+1` times through the LFSR step; re-running on the same
inputs yields identical output. -/
theorem claim_C1 (ciphertext cid k : List Nat) (i : Nat) (hi : i < ciphertext.length) :
    generate_key cid k =
      (if (∑ j ∈ Finset.range (cid ++ 58 :: k).length, (cid ++ 58 :: k).getD j 0 <<< (j % 16)) % 2 ^ 31 = 0
       then 0x12345678
       else (∑ j ∈ Finset.range (cid ++ 58 :: k).length, (cid ++ 58 :: k).getD j 0 <<< (j % 16)) % 2 ^ 31) ∧
    (decrypt_stream (generate_key cid k) ciphertext).getD i 0 =
      (((ciphertext.getD i 0 : Int) - 0x20 + ((lfsr_advance^[i + 1] (generate_key cid k) : Nat) : Int)) % 0x5E + 0x20).toNat ∧
    decrypt_descramble_data ciphertext cid k = decrypt_descramble_data ciphertext cid k := by
  refine ⟨?_, decrypt_stream_getD ciphertext (generate_key cid k) i hi, rfl⟩
  have hmask : gk_loop 0 0 (cid ++ 58 :: k) &&& 0x7FFFFFFF
      = gk_loop 0 0 (cid ++ 58 :: k) % 2 ^ 31 := by
    have : (0x7FFFFFFF : Nat) = 2 ^ 31 - 1 := by norm_num
    rw [this, Nat.and_pow_two_sub_one_eq_mod]
  have hsum : gk_loop 0 0 (cid ++ 58 :: k)
      = ∑ j ∈ Finset.range (cid ++ 58 :: k).length, (cid ++ 58 :: k).getD j 0 <<< (j % 16) := by
    rw [gk_loop_eq_sum]
    simp
  rw [generate_key, hmask, hsum]

/-- Witness for C1 at `ciphertext = [33]`, `cid = [97]`, `k = [98]`, `i = 0`. -/
theorem claim_C1_witness :
    (decrypt_stream (generate_key [97] [98]) [33]).getD 0 0 =
      ((((33 : Nat) : Int) - 0x20 + ((lfsr_advance^[0 + 1] (generate_key [97] [98]) : Nat) : Int)) % 0x5E + 0x20).toNat :=
  (claim_C1 [33] [97] [98] 0 (by decide)).2.1

/-- C9: the stream-cipher step of `_decrypt_descramble_data` preserves the
length of the ciphertext, and every output character code lies in the
printable range `[0x20, 0x7E)`, for every ciphertext and every `(cid, k)`. -/
theorem claim_C9 (ciphertext cid k : List Nat) :
    (decrypt_stream (generate_key cid k) ciphertext).length = ciphertext.length ∧
    ∀ n ∈ decrypt_stream (generate_key cid k) ciphertext, 0x20 ≤ n ∧ n < 0x7E :=
  ⟨decrypt_stream_length ciphertext (generate_key cid k),
   decrypt_stream_mem_range ciphertext (generate_key cid k)⟩

/-- C6 counterexample: with `cid = "a"`, `k = "b"`, the ciphertext `"k6"`
(codes `[107, 54]`) stream-decrypts to `"[]"`, which is valid JSON but not an
array of 8 strings; `_decrypt_descramble_data` nevertheless succeeds and
returns the empty array, where the claim requires it to raise. -/
theorem claim_C6_counterexample :
    decrypt_descramble_data [107, 54] [97] [98] = some (Json.arr []) ∧
    is_arr_8_str (Json.arr []) = false :=
  ⟨rfl, rfl⟩

/-- C6 (amended): `_decrypt_descramble_data` fails exactly when the string
produced by the stream cipher is not valid JSON; it performs no check that
the parsed value is an array of exactly 8 strings.  In particular, for every
`(cid, k)` there is a ciphertext on which it succeeds and returns the empty
JSON array. -/
theorem claim_C6_amended (cid k : List Nat) :
    (∀ ciphertext : List Nat,
      (decrypt_descramble_data ciphertext cid k).isSome =
        (json_loads (decrypt_stream (generate_key cid k) ciphertext)).isSome) ∧
    ∃ ciphertext : List Nat,
      decrypt_descramble_data ciphertext cid k = some (Json.arr []) ∧
      is_arr_8_str (Json.arr []) = false := by
  refine ⟨fun _ => rfl, encrypt_stream (generate_key cid k) [91, 93], ?_, rfl⟩
  unfold decrypt_descramble_data
  rw [decrypt_stream_encrypt_stream [91, 93] (generate_key cid k) (by decide)]
  rfl

/-! ### Slot selection: `BinBDescrambler._calculate_descramble_index` (descramble.py) -/

/-- Loop of `_calculate_descramble_index`: running index, `c` and `p`
accumulators; even indices add to `p`, odd indices to `c`. -/
def cdi_loop : Nat → Nat → Nat → List Nat → Nat × Nat
  | _, c, p, [] => (c, p)
  | i, c, p, ch :: rest =>
    if i % 2 = 0 then cdi_loop (i + 1) c (p + ch) rest
    else cdi_loop (i + 1) (c + ch) p rest

/-- `BinBDescrambler._calculate_descramble_index(filename)`: returns
`(c % 8, p % 8)`. -/
def calculate_descramble_index (filename : List Nat) : Nat × Nat :=
  let cp := cdi_loop 0 0 0 filename
  (cp.1 % 8, cp.2 % 8)

theorem cdi_loop_eq_sum (filename : List Nat) : ∀ (i c p : Nat),
    cdi_loop i c p filename =
      (c + ∑ j ∈ Finset.range filename.length, (if (i + j) % 2 = 1 then filename.getD j 0 else 0),
       p + ∑ j ∈ Finset.range filename.length, (if (i + j) % 2 = 0 then filename.getD j 0 else 0)) := by
  induction filename with
  | nil => intro i c p; simp [cdi_loop]
  | cons ch rest ih =>
    intro i c p
    have hsh : ∀ b : ℕ, (∑ j ∈ Finset.range rest.length, (if (i + 1 + j) % 2 = b then rest.getD j 0 else 0))
        = ∑ j ∈ Finset.range rest.length, (if (i + (j + 1)) % 2 = b then rest.getD j 0 else 0) := by
      intro b
      exact Finset.sum_congr rfl (fun j _ => by ring_nf)
    rw [List.length_cons]
    rw [show (∑ j ∈ Finset.range (rest.length + 1), (if (i + j) % 2 = 1 then (ch :: rest).getD j 0 else 0))
        = (∑ j ∈ Finset.range rest.length, (if (i + (j + 1)) % 2 = 1 then rest.getD j 0 else 0))
          + (if (i + 0) % 2 = 1 then ch else 0) from by
      rw [Finset.sum_range_succ']; simp]
    rw [show (∑ j ∈ Finset.range (rest.length + 1), (if (i + j) % 2 = 0 then (ch :: rest).getD j 0 else 0))
        = (∑ j ∈ Finset.range rest.length, (if (i + (j + 1)) % 2 = 0 then rest.getD j 0 else 0))
          + (if (i + 0) % 2 = 0 then ch else 0) from by
      rw [Finset.sum_range_succ']; simp]
    rcases Nat.even_or_odd i with he | ho
    · have h0 : i % 2 = 0 := Nat.even_iff.mp he
      rw [cdi_loop, if_pos h0, ih, hsh 0, hsh 1]
      have : (i + 0) % 2 = 0 := by omega
      rw [if_neg (by omega), if_pos this]
      simp only [Prod.mk.injEq]
      omega
    · have h1 : i % 2 = 1 := Nat.odd_iff.mp ho
      rw [cdi_loop, if_neg (by omega), ih, hsh 0, hsh 1]
      rw [if_pos (by omega), if_neg (by omega)]
      simp only [Prod.mk.injEq]
      omega

/-- C4 counterexample: the filename `"1"` (code 49) yields
`calculate_descramble_index = (0, 1)`, i.e. slot `(c, p) = (0, ord(c0) mod 8)`,
not `(ord(c0) mod 8, 0)` as the claim states. -/
theorem claim_C4_counterexample :
    calculate_descramble_index [49] = (0, 1) ∧ ¬ calculate_descramble_index [49] = (49 % 8, 0) := by
  decide

/-- C4 (amended): for every bare filename, the `i`-th character code is added
to `p_sum` for even `i` and to `c_sum` for odd `i`, and the result is
`(c_sum mod 8, p_sum mod 8)`; a filename of length 0 selects `(0, 0)` and a
filename of length 1 selects `(0, ord(c0) mod 8)` (the single character lands
in the `p` accumulator, not the `c` accumulator). -/
theorem claim_C4_amended :
    (∀ filename : List Nat,
      calculate_descramble_index filename =
        ((∑ j ∈ Finset.range filename.length, (if j % 2 = 1 then filename.getD j 0 else 0)) % 8,
         (∑ j ∈ Finset.range filename.length, (if j % 2 = 0 then filename.getD j 0 else 0)) % 8)) ∧
    calculate_descramble_index [] = (0, 0) ∧
    ∀ c0 : Nat, calculate_descramble_index [c0] = (0, c0 % 8) := by
  refine ⟨?_, by decide, ?_⟩
  · intro filename
    rw [calculate_descramble_index, cdi_loop_eq_sum]
    simp
  · intro c0
    rw [calculate_descramble_index, cdi_loop_eq_sum]
    simp

/-! ### Grid working size: guard of `_t1_generate_descramble_rectangles` -/

/-- The padded-image test of `BinBDescrambler._t1_generate_descramble_rectangles`
(with `h` from the `c`-slot, `v` from the `p`-slot, `padding` from the
`c`-slot): `img_width >= 64 + x and img_height >= 64 + y and
img_height * img_width >= (320 + x) * (320 + y)` for
`x = h*2*padding`, `y = v*2*padding`. -/
def t1_padded (h v padding img_width img_height : Nat) : Bool :=
  let x := h * 2 * padding
  let y := v * 2 * padding
  decide (img_width ≥ 64 + x) && decide (img_height ≥ 64 + y) &&
    decide (img_height * img_width ≥ (320 + x) * (320 + y))

/-- The working size chosen by `_t1_generate_descramble_rectangles`:
`(img_width, img_height)` when the padded test fails, else the image with the
guard `x`/`y` stripped. -/
def t1_working_size (h v padding img_width img_height : Nat) : Nat × Nat :=
  if !(t1_padded h v padding img_width img_height) then (img_width, img_height)
  else (img_width - h * 2 * padding, img_height - v * 2 * padding)

/-- C2 counterexample: with `h = v = 1`, `padding = 1` (so `x = y = 2`) and an
image of `322 × 322`, the area equals `(320+x)·(320+y)` exactly — no strict
inequality — yet the padded branch is taken and the working size is
`(320, 320)`, not `(W, H)`. -/
theorem claim_C2_counterexample :
    t1_padded 1 1 1 322 322 = true ∧
    322 * 322 = (320 + 1 * 2 * 1) * (320 + 1 * 2 * 1) ∧
    ¬ t1_working_size 1 1 1 322 322 = (322, 322) := by
  decide

/-- C2 (amended): with guard `x = h·2·padding`, `y = v·2·padding`, an image of
size exactly `(64+x, 64+y)` follows the unpadded branch — its area
`(64+x)·(64+y)` is strictly below `(320+x)·(320+y)` — and the padded branch is
taken exactly when `W ≥ 64+x`, `H ≥ 64+y` and `H·W ≥ (320+x)·(320+y)`; the
three predicates are non-strict, so equality still takes the padded branch. -/
theorem claim_C2_amended (h v padding : Nat) :
    t1_working_size h v padding (64 + h * 2 * padding) (64 + v * 2 * padding)
      = (64 + h * 2 * padding, 64 + v * 2 * padding) ∧
    ∀ img_width img_height : Nat,
      t1_padded h v padding img_width img_height = true ↔
        (64 + h * 2 * padding ≤ img_width ∧ 64 + v * 2 * padding ≤ img_height ∧
         (320 + h * 2 * padding) * (320 + v * 2 * padding) ≤ img_height * img_width) := by
  have hiff : ∀ W H : Nat, t1_padded h v padding W H = true ↔
      (64 + h * 2 * padding ≤ W ∧ 64 + v * 2 * padding ≤ H ∧
       (320 + h * 2 * padding) * (320 + v * 2 * padding) ≤ H * W) := by
    intro W H
    simp only [t1_padded, Bool.and_eq_true, decide_eq_true_eq, ge_iff_le]
    tauto
  refine ⟨?_, hiff⟩
  have hlt : (64 + v * 2 * padding) * (64 + h * 2 * padding)
      < (320 + h * 2 * padding) * (320 + v * 2 * padding) := by nlinarith
  cases hb : t1_padded h v padding (64 + h * 2 * padding) (64 + v * 2 * padding) with
  | false => rw [t1_working_size, hb]; rfl
  | true =>
    exfalso
    exact Nat.lt_irrefl _ (Nat.lt_of_le_of_lt ((hiff _ _).mp hb).2.2 hlt)

/-! ### Type-1 (Grid) key parsing: `RE_SCRAMBLE_DATA` and `_parse_type_1` -/

/-- ASCII decimal digit. -/
def is_digit_code (c : Nat) : Bool := 48 ≤ c && c ≤ 57

/-- Character class `[-_0-9A-Za-z]` of the regex body group
(45 is a hyphen, 95 an underscore). -/
def is_body_code (c : Nat) : Bool :=
  c = 45 || c = 95 || is_digit_code c || (65 ≤ c && c ≤ 90) || (97 ≤ c && c ≤ 122)

/-- Python `int` on a regex-guaranteed non-empty digit string. -/
def digits_to_nat (l : List Nat) : Nat := l.foldl (fun a c => a * 10 + (c - 48)) 0

/-- Matcher for `RE_SCRAMBLE_DATA = ^=([0-9]+)-([0-9]+)([-+])([0-9]+)-([-_0-9A-Za-z]+)$`
(61 is `=`, 45 `-`, 43 `+`).  Each `[0-9]+` group is followed by a
non-digit mandatory token, so greedy matching with backtracking coincides
with maximal-munch digit runs; the groups are returned as raw strings, since
`_parse_type_1` compares them as strings. -/
def match_scramble_data (s : List Nat) :
    Option (List Nat × List Nat × Nat × List Nat × List Nat) :=
  match s with
  | 61 :: r0 =>
    let g1 := r0.takeWhile is_digit_code
    let r1 := r0.dropWhile is_digit_code
    if g1 = [] then none else
    match r1 with
    | 45 :: r2 =>
      let g2 := r2.takeWhile is_digit_code
      let r3 := r2.dropWhile is_digit_code
      if g2 = [] then none else
      match r3 with
      | sign :: r4 =>
        if sign = 43 ∨ sign = 45 then
          let g4 := r4.takeWhile is_digit_code
          let r5 := r4.dropWhile is_digit_code
          if g4 = [] then none else
          match r5 with
          | 45 :: body =>
            if body ≠ [] ∧ body.all is_body_code then some (g1, g2, sign, g4, body)
            else none
          | _ => none
        else none
      | [] => none
    | _ => none
  | _ => none

/-- Parsed type-1 (Grid) slot: `Type1Parsed` of descramble.py. -/
structure Type1Parsed where
  h : Nat
  v : Nat
  s_str : List Nat
  d_str : List Nat
  padding : Nat
deriving DecidableEq

/-- `BinBDescrambler._parse_type_1(ctbl, ptbl)`.  A regex non-match (an
`AttributeError` on `.groups()`) and every `raise ValueError` are modelled as
`none`.  Group indices follow the source: groups 0, 1, 3 must agree between
the two slots as strings, the `c`-sign must be `+` and the `p`-sign `-`,
`h > 8 or v > 8 or h*v > 64` is rejected, and both bodies must have length
`h + v + h*v`. -/
def parse_type_1 (ctbl ptbl : List Nat) : Option Type1Parsed := do
  let (c0, c1, csign, c3, cbody) ← match_scramble_data ctbl
  let (p0, p1, psign, p3, pbody) ← match_scramble_data ptbl
  if c0 ≠ p0 ∨ c1 ≠ p1 ∨ c3 ≠ p3 ∨ csign ≠ 43 ∨ psign ≠ 45 then none else
  let h := digits_to_nat c0
  let v := digits_to_nat c1
  let padding := digits_to_nat c3
  if h > 8 ∨ v > 8 ∨ h * v > 64 then none else
  let s_str := cbody
  let d_str := pbody
  let target_len := h + v + h * v
  if s_str.length ≠ target_len ∨ d_str.length ≠ target_len then none else
  some ⟨h, v, s_str, d_str, padding⟩

/-- The hardcoded `TNP_ARRAY` of descramble.py (128 entries, `-1` for
characters outside the base64url alphabet). -/
def TNP_ARRAY : List Int :=
  [-1, -1, -1, -1, -1, -1, -1, -1, -1, -1, -1, -1, -1, -1, -1, -1, -1, -1, -1,
   -1, -1, -1, -1, -1, -1, -1, -1, -1, -1, -1, -1, -1, -1, -1, -1, -1, -1, -1,
   -1, -1, -1, -1, -1, -1, -1, 62, -1, -1, 52, 53, 54, 55, 56, 57, 58, 59, 60,
   61, -1, -1, -1, -1, -1, -1, -1, 0, 1, 2, 3, 4, 5, 6, 7, 8, 9, 10, 11, 12,
   13, 14, 15, 16, 17, 18, 19, 20, 21, 22, 23, 24, 25, -1, -1, -1, -1, 63, -1,
   26, 27, 28, 29, 30, 31, 32, 33, 34, 35, 36, 37, 38, 39, 40, 41, 42, 43, 44,
   45, 46, 47, 48, 49, 50, 51, -1, -1, -1, -1, -1]

/-- `TNP_ARRAY[ord(ch)]`; `none` models the `IndexError` for codes ≥ 128. -/
def tnp_lookup (ch : Nat) : Option Int := TNP_ARRAY.get? ch

theorem match_scramble_data_body_class (s g1 g2 : List Nat) (sign : Nat) (g4 body : List Nat)
    (hm : match_scramble_data s = some (g1, g2, sign, g4, body)) :
    body ≠ [] ∧ body.all is_body_code := by
  rw [match_scramble_data.eq_def] at hm
  split at hm
  case _ =>
    simp only at hm
    split at hm
    · cases hm
    split at hm
    case _ =>
      split at hm
      · cases hm
      split at hm
      case _ =>
        split at hm
        case _ =>
          split at hm
          · cases hm
          split at hm
          case _ =>
            split at hm
            case _ h =>
              cases hm
              exact h
            case _ => cases hm
          case _ => cases hm
        case _ => cases hm
      case _ => cases hm
    case _ => cases hm
  case _ => cases hm

/-- C5 counterexample: the slot pair `"=2-2+0-zzzzzzzz"` / `"=2-2-0-zzzzzzzz"`
is accepted by `_parse_type_1` (122 is `ord('z')`), yet `'z'` maps to 51 via
`TNP_ARRAY`, which is not in `[0, h·v) = [0, 4)`: the character-range part of
the claimed invariant is not enforced at parse time. -/
theorem claim_C5_counterexample :
    parse_type_1
        [61, 50, 45, 50, 43, 48, 45, 122, 122, 122, 122, 122, 122, 122, 122]
        [61, 50, 45, 50, 45, 48, 45, 122, 122, 122, 122, 122, 122, 122, 122]
      = some ⟨2, 2, [122, 122, 122, 122, 122, 122, 122, 122],
             [122, 122, 122, 122, 122, 122, 122, 122], 0⟩ ∧
    tnp_lookup 122 = some 51 ∧ ¬ ((51 : Int) < 2 * 2) := by
  refine ⟨by decide, by decide, by decide⟩

/-- C5 (amended): every Grid slot pair accepted by `_parse_type_1` satisfies
`h ≤ 8`, `v ≤ 8`, `h·v ≤ 64` and `len(s_str) = len(d_str) = h + v + h·v`, and
every character of both bodies lies in the regex class `[-_0-9A-Za-z]`.  The
parser does not check `h ≥ 1` or `v ≥ 1`, and does not check that the body
characters map through `TNP_ARRAY` into `[0, h·v)`. -/
theorem claim_C5_amended (ctbl ptbl : List Nat) (t : Type1Parsed)
    (hp : parse_type_1 ctbl ptbl = some t) :
    t.h ≤ 8 ∧ t.v ≤ 8 ∧ t.h * t.v ≤ 64 ∧
    t.s_str.length = t.h + t.v + t.h * t.v ∧
    t.d_str.length = t.h + t.v + t.h * t.v ∧
    (∀ ch ∈ t.s_str, is_body_code ch = true) ∧
    (∀ ch ∈ t.d_str, is_body_code ch = true) := by
  rw [parse_type_1] at hp
  rcases hc : match_scramble_data ctbl with _ | ⟨c0, c1, csign, c3, cbody⟩ <;>
    rw [hc] at hp
  · simp [Option.bind] at hp
  rcases hq : match_scramble_data ptbl with _ | ⟨p0, p1, psign, p3, pbody⟩ <;>
    rw [hq] at hp
  · simp [Option.bind] at hp
  simp only [Option.bind_eq_bind, Option.some_bind] at hp
  split at hp
  · exact absurd hp (by simp)
  split at hp
  · exact absurd hp (by simp)
  split at hp
  · exact absurd hp (by simp)
  rename_i hsigns hhv hlen
  have ht : t = ⟨digits_to_nat c0, digits_to_nat c1, cbody, pbody, digits_to_nat c3⟩ := by
    cases hp
    rfl
  subst ht
  dsimp only
  have hcb : cbody ≠ [] ∧ cbody.all is_body_code := by
    have := match_scramble_data_body_class ctbl _ _ _ _ _ hc
    exact this
  have hpb : pbody ≠ [] ∧ pbody.all is_body_code := by
    have := match_scramble_data_body_class ptbl _ _ _ _ _ hq
    exact this
  refine ⟨by omega, by omega, by omega, by omega, by omega, ?_, ?_⟩
  · intro ch hch
    exact List.all_eq_true.mp hcb.2 ch hch
  · intro ch hch
    exact List.all_eq_true.mp hpb.2 ch hch

/-- Witness for C5 (amended) on the slot pair `"=2-2+1-ABCDEFGH"` /
`"=2-2-1-ABCDEFGH"`. -/
theorem claim_C5_witness :
    (let t : Type1Parsed := ⟨2, 2, [65, 66, 67, 68, 69, 70, 71, 72],
       [65, 66, 67, 68, 69, 70, 71, 72], 1⟩
     parse_type_1 [61, 50, 45, 50, 43, 49, 45, 65, 66, 67, 68, 69, 70, 71, 72]
         [61, 50, 45, 50, 45, 49, 45, 65, 66, 67, 68, 69, 70, 71, 72] = some t ∧
     (t.h ≤ 8 ∧ t.v ≤ 8 ∧ t.h * t.v ≤ 64 ∧
      t.s_str.length = t.h + t.v + t.h * t.v ∧
      t.d_str.length = t.h + t.v + t.h * t.v ∧
      (∀ ch ∈ t.s_str, is_body_code ch = true) ∧
      (∀ ch ∈ t.d_str, is_body_code ch = true))) :=
  ⟨by decide,
   claim_C5_amended [61, 50, 45, 50, 43, 49, 45, 65, 66, 67, 68, 69, 70, 71, 72]
     [61, 50, 45, 50, 45, 49, 45, 65, 66, 67, 68, 69, 70, 71, 72]
     ⟨2, 2, [65, 66, 67, 68, 69, 70, 71, 72], [65, 66, 67, 68, 69, 70, 71, 72], 1⟩
     (by decide)⟩

/-! ### Type-2 (Tile) key parsing: `_parse_type_2` -/

/-- `ALPHABET = "ABCDEFGHIJKLMNOPQRSTUVWXYZ"` as character codes. -/
def ALPHABET : List Nat :=
  [65, 66, 67, 68, 69, 70, 71, 72, 73, 74, 75, 76, 77, 78, 79, 80, 81, 82,
   83, 84, 85, 86, 87, 88, 89, 90]

/-- Python `str.index`: first index of `ch`, or `none` for the raised
`ValueError`.  First argument is the running index of the scan. -/
def str_index_loop (ch : Nat) : Nat → List Nat → Option Nat
  | _, [] => none
  | i, c :: rest => if c = ch then some i else str_index_loop ch (i + 1) rest

/-- `decode_t2_key_char` of `_parse_type_2`: try `ALPHABET.index(char)` with
`b = 1`, fall back to `ALPHABET.lower().index(char)` with `b = 0`
(lower-casing adds 32 to each code), return `b + c * 2`; `none` when the
character is in neither alphabet. -/
def decode_t2_key_char (ch : Nat) : Option Nat :=
  match str_index_loop ch 0 ALPHABET with
  | some c => some (1 + c * 2)
  | none =>
    match str_index_loop ch 0 (ALPHABET.map (fun c => c + 32)) with
    | some c => some (0 + c * 2)
    | none => none

/-- Python `key.split("-")` (45 is a hyphen). -/
def split_dash : List Nat → List (List Nat)
  | [] => [[]]
  | c :: rest =>
    let r := split_dash rest
    if c = 45 then [] :: r
    else
      match r with
      | g :: gs => (c :: g) :: gs
      | [] => [[c]]

/-- Python `int` on an arbitrary split part: non-empty all-digit strings
parse, everything else raises `ValueError` (`none`).  Underscore separators
and surrounding whitespace, which Python `int` also accepts, are outside the
modelled scope. -/
def parse_int_digits (l : List Nat) : Option Nat :=
  if l ≠ [] ∧ l.all is_digit_code then some (digits_to_nat l) else none

/-- One piece record of a parsed type-2 key. -/
structure Piece where
  x : Nat
  y : Nat
  width : Nat
  height : Nat
deriving DecidableEq

/-- Parsed type-2 (Tile) slot: `Type2Parsed` of descramble.py. -/
structure Type2Parsed where
  ndx : Nat
  ndy : Nat
  pieces : List Piece
deriving DecidableEq

/-- The `if i <= f / g / h / j` chain of `_parse_type_2` selecting each
piece's `(width, height)`.  When `i > j` the source leaves the fields unset
(a later `KeyError`); that case is unreachable because `j = ndx*ndy - 1` and
the loop runs `i < ndx*ndy`, and is modelled as `(0, 0)`. -/
def t2_piece_size (f g h j : Int) (i : Nat) : Nat × Nat :=
  if (i : Int) ≤ f then (2, 2)
  else if (i : Int) ≤ g then (2, 1)
  else if (i : Int) ≤ h then (1, 2)
  else if (i : Int) ≤ j then (1, 1)
  else (0, 0)

/-- The piece-building loop of `_parse_type_2` over the ordinals
`range(ndx*ndy)`.  `data[i*2]` and `data[i*2+1]` are always in range because
`len(data) = ndx*ndy*2` was checked, so `getD` coincides with Python
indexing. -/
def build_pieces (data : List Nat) (f g h j : Int) : List Nat → Option (List Piece)
  | [] => some []
  | i :: is => do
    let x ← decode_t2_key_char (data.getD (i * 2) 0)
    let y ← decode_t2_key_char (data.getD (i * 2 + 1) 0)
    let rest ← build_pieces data f g h j is
    some (⟨x, y, (t2_piece_size f g h j i).1, (t2_piece_size f g h j i).2⟩ :: rest)

/-- `BinBDescrambler._parse_type_2(key)`: split on `-` into exactly three
parts, parse `ndx`, `ndy`, check `len(data) = ndx*ndy*2`, then build the
pieces; every `raise` is modelled as `none`. -/
def parse_type_2 (key : List Nat) : Option Type2Parsed :=
  match split_dash key with
  | [k0, k1, data] => do
    let ndx ← parse_int_digits k0
    let ndy ← parse_int_digits k1
    if data.length ≠ ndx * ndy * 2 then none
    else
      let f : Int := ((ndx : Int) - 1) * ((ndy : Int) - 1) - 1
      let g : Int := f + ((ndx : Int) - 1)
      let h : Int := g + ((ndy : Int) - 1)
      let j : Int := h + 1
      match build_pieces data f g h j (List.range (ndx * ndy)) with
      | some pieces => some ⟨ndx, ndy, pieces⟩
      | none => none
  | _ => none

/-! ### Decoding characterisation -/

theorem str_index_loop_spec (l : List Nat) : ∀ (ch i c : Nat),
    str_index_loop ch i l = some c →
    ∃ off, off < l.length ∧ c = i + off ∧ l.getD off 0 = ch := by
  induction l with
  | nil => intro ch i c hc; cases hc
  | cons c0 rest ih =>
    intro ch i c hc
    rw [str_index_loop] at hc
    split at hc
    · cases hc
      rename_i he
      exact ⟨0, by simp, by omega, by simpa using he⟩
    · obtain ⟨off, hlt, hco, hget⟩ := ih ch (i + 1) c hc
      exact ⟨off + 1, by simpa using hlt, by omega, by simpa using hget⟩

theorem alphabet_getD (off : Nat) (hoff : off < 26) : ALPHABET.getD off 0 = 65 + off := by
  have h : ∀ o : Fin 26, ALPHABET.getD o.val 0 = 65 + o.val := by decide
  exact h ⟨off, hoff⟩

theorem alphabet_lower_getD (off : Nat) (hoff : off < 26) :
    (ALPHABET.map (fun c => c + 32)).getD off 0 = 97 + off := by
  have h : ∀ o : Fin 26, (ALPHABET.map (fun c => c + 32)).getD o.val 0 = 97 + o.val := by decide
  exact h ⟨off, hoff⟩

theorem decode_t2_key_char_spec (ch v : Nat) (hd : decode_t2_key_char ch = some v) :
    (65 ≤ ch ∧ ch ≤ 90 ∧ v = 2 * (ch - 65) + 1) ∨
    (97 ≤ ch ∧ ch ≤ 122 ∧ v = 2 * (ch - 97)) := by
  rw [decode_t2_key_char] at hd
  split at hd
  · rename_i c hup
    obtain ⟨off, hlt, hco, hget⟩ := str_index_loop_spec ALPHABET ch 0 c hup
    have h26 : off < 26 := by simpa [ALPHABET] using hlt
    have := alphabet_getD off h26
    cases hd
    left
    refine ⟨by omega, by omega, by omega⟩
  · rename_i hup
    split at hd
    · rename_i c hlow
      obtain ⟨off, hlt, hco, hget⟩ :=
        str_index_loop_spec (ALPHABET.map (fun c => c + 32)) ch 0 c hlow
      have h26 : off < 26 := by simpa [ALPHABET] using hlt
      have := alphabet_lower_getD off h26
      cases hd
      right
      refine ⟨by omega, by omega, by omega⟩
    · cases hd

theorem build_pieces_spec (data : List Nat) (f g h j : Int) :
    ∀ (idxs : List Nat) (ps : List Piece), build_pieces data f g h j idxs = some ps →
    ps.length = idxs.length ∧
    ∀ n, n < idxs.length →
      ∃ x y, decode_t2_key_char (data.getD (idxs.getD n 0 * 2) 0) = some x ∧
        decode_t2_key_char (data.getD (idxs.getD n 0 * 2 + 1) 0) = some y ∧
        ps.getD n ⟨0, 0, 0, 0⟩ =
          ⟨x, y, (t2_piece_size f g h j (idxs.getD n 0)).1,
            (t2_piece_size f g h j (idxs.getD n 0)).2⟩ := by
  intro idxs
  induction idxs with
  | nil =>
    intro ps hp
    cases hp
    exact ⟨rfl, fun n hn => absurd hn (by simp)⟩
  | cons i is ih =>
    intro ps hp
    rw [build_pieces] at hp
    rcases hx : decode_t2_key_char (data.getD (i * 2) 0) with _ | x <;> rw [hx] at hp
    · cases hp
    rcases hy : decode_t2_key_char (data.getD (i * 2 + 1) 0) with _ | y <;> rw [hy] at hp
    · cases hp
    rcases hr : build_pieces data f g h j is with _ | rest <;> rw [hr] at hp
    · cases hp
    simp only [Option.bind_eq_bind, Option.some_bind] at hp
    cases hp
    obtain ⟨hlen, hspec⟩ := ih rest hr
    refine ⟨by simpa using hlen, ?_⟩
    intro n hn
    cases n with
    | zero => exact ⟨x, y, hx, hy, rfl⟩
    | succ m =>
      have hm : m < is.length := by simpa using hn
      simpa using hspec m hm

/-- C7: for every Tile slot accepted by `_parse_type_2`, the data part has
length `2·ndx·ndy`; each piece's `x` and `y` are decoded from one character
each, as `2·position + 1` for an upper-case letter and `2·position` for a
lower-case letter; and with `F = (ndx−1)(ndy−1)−1`, `G = F + (ndx−1)`,
`H = G + (ndy−1)`, the piece at ordinal `i` has size 2×2 when `i ≤ F`,
2×1 when `F < i ≤ G`, 1×2 when `G < i ≤ H`, and 1×1 past `H` (up to
`J = H + 1 = ndx·ndy − 1`, the largest ordinal). -/
theorem claim_C7 (key : List Nat) (t : Type2Parsed) (hp : parse_type_2 key = some t) :
    ((split_dash key).getD 2 []).length = 2 * (t.ndx * t.ndy) ∧
    t.pieces.length = t.ndx * t.ndy ∧
    ∀ i, i < t.pieces.length →
      (let data := (split_dash key).getD 2 []
       let pc := t.pieces.getD i ⟨0, 0, 0, 0⟩
       let cx := data.getD (i * 2) 0
       let cy := data.getD (i * 2 + 1) 0
       let F : Int := ((t.ndx : Int) - 1) * ((t.ndy : Int) - 1) - 1
       let G : Int := F + ((t.ndx : Int) - 1)
       let H : Int := G + ((t.ndy : Int) - 1)
       ((65 ≤ cx ∧ cx ≤ 90 ∧ pc.x = 2 * (cx - 65) + 1) ∨
        (97 ≤ cx ∧ cx ≤ 122 ∧ pc.x = 2 * (cx - 97))) ∧
       ((65 ≤ cy ∧ cy ≤ 90 ∧ pc.y = 2 * (cy - 65) + 1) ∨
        (97 ≤ cy ∧ cy ≤ 122 ∧ pc.y = 2 * (cy - 97))) ∧
       (pc.width, pc.height) =
         (if (i : Int) ≤ F then (2, 2)
          else if (i : Int) ≤ G then (2, 1)
          else if (i : Int) ≤ H then (1, 2)
          else (1, 1))) := by
  rw [parse_type_2] at hp
  split at hp
  case _ k0 k1 data hs =>
    rcases hndx : parse_int_digits k0 with _ | ndx <;> rw [hndx] at hp
    · cases hp
    rcases hndy : parse_int_digits k1 with _ | ndy <;> rw [hndy] at hp
    · cases hp
    simp only [Option.bind_eq_bind, Option.some_bind] at hp
    split at hp
    · cases hp
    rename_i hdlen
    rcases hb : build_pieces data (((ndx : Int) - 1) * ((ndy : Int) - 1) - 1)
        ((((ndx : Int) - 1) * ((ndy : Int) - 1) - 1) + ((ndx : Int) - 1))
        (((((ndx : Int) - 1) * ((ndy : Int) - 1) - 1) + ((ndx : Int) - 1)) + ((ndy : Int) - 1))
        ((((((ndx : Int) - 1) * ((ndy : Int) - 1) - 1) + ((ndx : Int) - 1)) + ((ndy : Int) - 1)) + 1)
        (List.range (ndx * ndy)) with _ | pieces <;> rw [hb] at hp
    · cases hp
    cases hp
    obtain ⟨hplen, hpspec⟩ := build_pieces_spec _ _ _ _ _ _ _ hb
    have hgd : (split_dash key).getD 2 [] = data := by rw [hs]; rfl
    have hplen' : pieces.length = ndx * ndy := by simpa using hplen
    refine ⟨by rw [hgd]; dsimp only; omega, by simpa using hplen', ?_⟩
    intro i hi
    have hi' : i < ndx * ndy := by simpa [hplen'] using hi
    have hrg : (List.range (ndx * ndy)).getD i 0 = i := by
      rw [List.getD_eq_getElem?_getD, List.getElem?_range hi']
      rfl
    obtain ⟨x, y, hx, hy, hpc⟩ := hpspec i (by simpa using hi')
    rw [hrg] at hx hy hpc
    dsimp only
    rw [hgd, hpc]
    have hxc := decode_t2_key_char_spec _ _ hx
    have hyc := decode_t2_key_char_spec _ _ hy
    refine ⟨?_, ?_, ?_⟩
    · rcases hxc with ⟨a, b, c⟩ | ⟨a, b, c⟩
      · exact Or.inl ⟨a, b, c⟩
      · exact Or.inr ⟨a, b, c⟩
    · rcases hyc with ⟨a, b, c⟩ | ⟨a, b, c⟩
      · exact Or.inl ⟨a, b, c⟩
      · exact Or.inr ⟨a, b, c⟩
    · have hiz : (i : Int) < (ndx : Int) * (ndy : Int) := by
        have : (i : Int) < ((ndx * ndy : Nat) : Int) := by exact_mod_cast hi'
        simpa [Nat.cast_mul] using this
      have hring : ((((((ndx : Int) - 1) * ((ndy : Int) - 1) - 1) + ((ndx : Int) - 1))
            + ((ndy : Int) - 1)) + 1) = (ndx : Int) * (ndy : Int) - 1 := by ring
      dsimp only
      rw [t2_piece_size]
      split_ifs with h1 h2 h3 h4
      · rfl
      · rfl
      · rfl
      · rfl
      · exfalso
        omega
  case _ =>
    cases hp

/-- Witness for C7 on the key `"2-2-AbCdEfGh"`. -/
theorem claim_C7_witness :
    (let key : List Nat := [50, 45, 50, 45, 65, 98, 67, 100, 69, 102, 71, 104]
     let t : Type2Parsed := ⟨2, 2, [⟨1, 2, 2, 2⟩, ⟨5, 6, 2, 1⟩, ⟨9, 10, 1, 2⟩, ⟨13, 14, 1, 1⟩]⟩
     parse_type_2 key = some t ∧
     (((split_dash key).getD 2 []).length = 2 * (t.ndx * t.ndy) ∧
      t.pieces.length = t.ndx * t.ndy ∧
      ∀ i, i < t.pieces.length →
        (let data := (split_dash key).getD 2 []
         let pc := t.pieces.getD i ⟨0, 0, 0, 0⟩
         let cx := data.getD (i * 2) 0
         let cy := data.getD (i * 2 + 1) 0
         let F : Int := ((t.ndx : Int) - 1) * ((t.ndy : Int) - 1) - 1
         let G : Int := F + ((t.ndx : Int) - 1)
         let H : Int := G + ((t.ndy : Int) - 1)
         ((65 ≤ cx ∧ cx ≤ 90 ∧ pc.x = 2 * (cx - 65) + 1) ∨
          (97 ≤ cx ∧ cx ≤ 122 ∧ pc.x = 2 * (cx - 97))) ∧
         ((65 ≤ cy ∧ cy ≤ 90 ∧ pc.y = 2 * (cy - 65) + 1) ∨
          (97 ≤ cy ∧ cy ≤ 122 ∧ pc.y = 2 * (cy - 97))) ∧
         (pc.width, pc.height) =
           (if (i : Int) ≤ F then (2, 2)
            else if (i : Int) ≤ G then (2, 1)
            else if (i : Int) ≤ H then (1, 2)
            else (1, 1))))) :=
  ⟨by decide,
   claim_C7 [50, 45, 50, 45, 65, 98, 67, 100, 69, 102, 71, 104]
     ⟨2, 2, [⟨1, 2, 2, 2⟩, ⟨5, 6, 2, 1⟩, ⟨9, 10, 1, 2⟩, ⟨13, 14, 1, 1⟩]⟩ (by decide)⟩

/-! ### Tile rectangle generation: `_t2_generate_descramble_rectangles` -/

/-- `DescrambleRectangle` of descramble.py.  Coordinates are `Int`: with
degenerate parsed values (e.g. `ndx = 0`) the Python arithmetic can go
negative. -/
structure DescrambleRectangle where
  dst_x : Int
  dst_y : Int
  src_x : Int
  src_y : Int
  width : Int
  height : Int
deriving DecidableEq

/-- The two errors `_t2_generate_descramble_rectangles` can raise: the
`ValueError` for too-small images, and the `IndexError` when
`p_parsed.pieces` is shorter than `c_parsed.pieces` (the slots of a pair are
checked to agree, but `c_index ≠ p_index` picks records from two different
slots). -/
inductive T2Error where
  | imageTooSmall
  | indexError
deriving DecidableEq

/-- The per-piece loop of `_t2_generate_descramble_rectangles`: iterates over
`c_parsed.pieces`, indexing `p_parsed.pieces` at the same position (`none`
models the `IndexError` when the latter is shorter; surplus `p` pieces are
ignored, as in Python). -/
def t2_piece_rects (f g j k : Int) : List Piece → List Piece → Option (List DescrambleRectangle)
  | [], _ => some []
  | _ :: _, [] => none
  | cp :: cs, pp :: ps =>
    match t2_piece_rects f g j k cs ps with
    | none => none
    | some rest =>
      some (⟨((pp.x / 2 : Nat) : Int) * f + ((pp.x % 2 : Nat) : Int) * g,
             ((pp.y / 2 : Nat) : Int) * j + ((pp.y % 2 : Nat) : Int) * k,
             ((cp.x / 2 : Nat) : Int) * f + ((cp.x % 2 : Nat) : Int) * g,
             ((cp.y / 2 : Nat) : Int) * j + ((cp.y % 2 : Nat) : Int) * k,
             ((cp.width / 2 : Nat) : Int) * f + ((cp.width % 2 : Nat) : Int) * g,
             ((cp.height / 2 : Nat) : Int) * j + ((cp.height % 2 : Nat) : Int) * k⟩ :: rest)

/-- Body of `_t2_generate_descramble_rectangles` inside the size guard:
`e`, `f`, `g`, `h`, `j`, `k`, the per-piece rectangles, and the at most two
trailing residue strips.  `math.floor` over Python float division is modelled
as exact integer floor division (the guard makes every dividend here
non-negative, where `Int` division and `emod` agree with Python). -/
def t2_rects_core (c_parsed p_parsed : Type2Parsed) (img_width img_height : Nat) :
    Option (List DescrambleRectangle) :=
  let e : Int := (img_width : Int) - (img_width : Int) % 8
  let f : Int := (e - 1) / 7 - ((e - 1) / 7) % 8
  let g : Int := e - f * 7
  let h : Int := (img_height : Int) - (img_height : Int) % 8
  let j : Int := (h - 1) / 7 - ((h - 1) / 7) % 8
  let k : Int := h - j * 7
  match t2_piece_rects f g j k c_parsed.pieces p_parsed.pieces with
  | none => none
  | some rects =>
    let e2 : Int := f * ((c_parsed.ndx : Int) - 1) + g
    let h2 : Int := j * ((c_parsed.ndy : Int) - 1) + k
    let rects2 := if e2 < (img_width : Int)
      then rects ++ [⟨e2, 0, e2, 0, (img_width : Int) - e2, h2⟩] else rects
    let rects3 := if h2 < (img_height : Int)
      then rects2 ++ [⟨0, h2, 0, h2, (img_width : Int), (img_height : Int) - h2⟩] else rects2
    some rects3

/-- `BinBDescrambler._t2_generate_descramble_rectangles(c_index, p_index,
img_size)` after the two parsed records have been fetched: the size guard
`img_width >= 64 and img_height >= 64 and img_width * img_height >= 320*320`,
the rectangle computation, and the returned `(img_width, img_height, res)`. -/
def t2_generate_descramble_rectangles (c_parsed p_parsed : Type2Parsed)
    (img_width img_height : Nat) : Except T2Error (Nat × Nat × List DescrambleRectangle) :=
  if img_width ≥ 64 ∧ img_height ≥ 64 ∧ img_width * img_height ≥ 320 * 320 then
    match t2_rects_core c_parsed p_parsed img_width img_height with
    | some rects => Except.ok (img_width, img_height, rects)
    | none => Except.error T2Error.indexError
  else Except.error T2Error.imageTooSmall

/-- C3 counterexample: the Tile slot `"1-1-aa"` is accepted by the parser,
and on a 320×320 image — area exactly `320·320` — the generator succeeds
(the guard is `>=`): it does not raise `ImageTooSmallError` as the claim
requires. -/
theorem claim_C3_counterexample :
    parse_type_2 [49, 45, 49, 45, 97, 97] = some ⟨1, 1, [⟨0, 0, 1, 1⟩]⟩ ∧
    (320 : Nat) * 320 = 320 * 320 ∧
    ¬ t2_generate_descramble_rectangles ⟨1, 1, [⟨0, 0, 1, 1⟩]⟩ ⟨1, 1, [⟨0, 0, 1, 1⟩]⟩ 320 320
        = Except.error T2Error.imageTooSmall := by
  refine ⟨by decide, rfl, ?_⟩
  intro hcon
  have hok : t2_generate_descramble_rectangles ⟨1, 1, [⟨0, 0, 1, 1⟩]⟩ ⟨1, 1, [⟨0, 0, 1, 1⟩]⟩ 320 320
      = Except.ok (320, 320, [⟨0, 0, 0, 0, 40, 40⟩, ⟨40, 0, 40, 0, 280, 40⟩,
          ⟨0, 40, 0, 40, 320, 280⟩]) := by rfl
  rw [hok] at hcon
  cases hcon

/-- C3 (amended): the Tile-variant generator raises `ImageTooSmallError`
exactly when `W < 64` or `H < 64` or `W·H < 320·320`; an image with
`W, H ≥ 64` and area exactly `320·320` passes the guard (the failure
comparison is strict, so the success comparison is inclusive). -/
theorem claim_C3_amended (c_parsed p_parsed : Type2Parsed) (img_width img_height : Nat) :
    t2_generate_descramble_rectangles c_parsed p_parsed img_width img_height
        = Except.error T2Error.imageTooSmall ↔
      (img_width < 64 ∨ img_height < 64 ∨ img_width * img_height < 320 * 320) := by
  rw [t2_generate_descramble_rectangles]
  by_cases hg : img_width ≥ 64 ∧ img_height ≥ 64 ∧ img_width * img_height ≥ 320 * 320
  · rw [if_pos hg]
    constructor
    · intro hcon
      exfalso
      cases hr : t2_rects_core c_parsed p_parsed img_width img_height <;> rw [hr] at hcon <;>
        cases hcon
    · intro hlt
      exact absurd hlt (by omega)
  · rw [if_neg hg]
    constructor
    · intro _
      omega
    · intro _
      rfl

/-! ### Round-robin distribution: `ThreadedDownloaderPlugin.distribute_items`
(threaded_downloader.py) -/

/-- The loop of `distribute_items`: `split_items[i % thread_count].append(item)`
for each `(i, item)`.  `none` models the `ZeroDivisionError` Python raises on
`i % 0` when `thread_count = 0` and an item exists. -/
def di_loop (thread_count : Nat) : Nat → List (List α) → List α → Option (List (List α))
  | _, acc, [] => some acc
  | i, acc, item :: rest =>
    if thread_count = 0 then none
    else di_loop thread_count (i + 1)
      (acc.set (i % thread_count) (acc.getD (i % thread_count) [] ++ [item])) rest

/-- `ThreadedDownloaderPlugin.distribute_items(items)`: start from
`thread_count` empty buckets and append each item to bucket `i % thread_count`. -/
def distribute_items (items : List α) (thread_count : Nat) : Option (List (List α)) :=
  di_loop thread_count 0 (List.replicate thread_count []) items

/-- The sublist of `items` (counted from running index `i`) whose indices are
congruent to `r` mod `T` — the contents of bucket `r`. -/
def bucket_from (T r : Nat) : Nat → List α → List α
  | _, [] => []
  | i, a :: rest =>
    if i % T = r then a :: bucket_from T r (i + 1) rest else bucket_from T r (i + 1) rest

theorem di_loop_eq (items : List α) : ∀ (T i : Nat) (acc : List (List α)), T ≠ 0 →
    acc.length = T →
    di_loop T i acc items
      = some ((List.range T).map (fun r => acc.getD r [] ++ bucket_from T r i items)) := by
  induction items with
  | nil =>
    intro T i acc hT hlen
    rw [di_loop]
    congr 1
    apply List.ext_getElem?
    intro n
    simp only [List.getElem?_map, List.getElem?_range']
    rcases Nat.lt_or_ge n T with hn | hn
    · rw [List.getElem?_range hn]
      have hn' : n < acc.length := by omega
      rw [List.getElem?_eq_getElem hn']
      simp [bucket_from, List.getD_eq_getElem?_getD, List.getElem?_eq_getElem hn']
    · rw [List.getElem?_eq_none (by simpa [hlen] using hn)]
      rw [List.getElem?_eq_none (by simpa using hn)]
      rfl
  | cons a rest ih =>
    intro T i acc hT hlen
    rw [di_loop, if_neg hT, ih T (i + 1) _ hT (by simpa using hlen)]
    congr 1
    apply List.map_congr_left
    intro r hr
    have hrT : r < T := List.mem_range.mp hr
    have hmod : i % T < acc.length := by
      rw [hlen]; exact Nat.mod_lt _ (by omega)
    by_cases hc : i % T = r
    · subst hc
      rw [bucket_from, if_pos rfl]
      have : (acc.set (i % T) (acc.getD (i % T) [] ++ [a])).getD (i % T) []
          = acc.getD (i % T) [] ++ [a] := by
        simp [List.getD_eq_getElem?_getD, List.getElem?_set_self hmod]
      rw [this, List.append_cons, List.append_assoc]
      simp
    · rw [bucket_from, if_neg hc]
      have : (acc.set (i % T) (acc.getD (i % T) [] ++ [a])).getD r []
          = acc.getD r [] := by
        simp [List.getD_eq_getElem?_getD, List.getElem?_set_ne hc]
      rw [this]

theorem bucket_from_eq_filter (T : Nat) (items : List α) : ∀ (r i : Nat),
    bucket_from T r i items
      = ((List.enumFrom i items).filter (fun p => p.1 % T == r)).map Prod.snd := by
  induction items with
  | nil => intro r i; rfl
  | cons a rest ih =>
    intro r i
    rw [bucket_from, List.enumFrom_cons]
    by_cases hc : i % T = r
    · rw [if_pos hc, List.filter_cons_of_pos (by simpa using hc)]
      simp [ih]
    · rw [if_neg hc, List.filter_cons_of_neg (by simpa using hc)]
      exact ih r (i + 1)

theorem join_map_insert_perm (a : α) (gf : Nat → List α) :
    ∀ (L : List Nat) (m : Nat), m ∈ L → L.Nodup →
    (L.map (fun r => if m = r then a :: gf r else gf r)).flatten.Perm
      (a :: (L.map gf).flatten) := by
  intro L
  induction L with
  | nil => intro m hm; cases hm
  | cons r L' ih =>
    intro m hm hnd
    have hndL' : L'.Nodup := (List.nodup_cons.mp hnd).2
    have hrL' : r ∉ L' := (List.nodup_cons.mp hnd).1
    rcases List.mem_cons.mp hm with he | hm'
    · subst he
      have hmap : L'.map (fun r' => if m = r' then a :: gf r' else gf r') = L'.map gf := by
        apply List.map_congr_left
        intro r' hr'
        rw [if_neg (by intro hcon; exact hrL' (hcon ▸ hr'))]
      simp only [List.map_cons, List.flatten_cons, if_pos rfl, hmap]
      rfl
    · have hmr : m ≠ r := by intro hcon; exact hrL' (hcon ▸ hm')
      simp only [List.map_cons, List.flatten_cons, if_neg hmr]
      exact ((ih m hm' hndL').append_left (gf r)).trans List.perm_middle

theorem join_buckets_perm (T : Nat) (hT : T ≠ 0) (items : List α) : ∀ i : Nat,
    ((List.range T).map (fun r => bucket_from T r i items)).flatten.Perm items := by
  induction items with
  | nil =>
    intro i
    have : (List.range T).map (fun r => bucket_from T r i ([] : List α))
        = (List.range T).map (fun _ => ([] : List α)) := by
      apply List.map_congr_left; intro r _; rfl
    rw [this]
    simp
  | cons a rest ih =>
    intro i
    have hstep : (List.range T).map (fun r => bucket_from T r i (a :: rest))
        = (List.range T).map
            (fun r => if i % T = r then a :: bucket_from T r (i + 1) rest
                      else bucket_from T r (i + 1) rest) := by
      apply List.map_congr_left; intro r _; rw [bucket_from]
    rw [hstep]
    refine (join_map_insert_perm a (fun r => bucket_from T r (i + 1) rest)
        (List.range T) (i % T) ?_ (List.nodup_range T)).trans ?_
    · exact List.mem_range.mpr (Nat.mod_lt _ (by omega))
    · exact (ih (i + 1)).cons a

theorem mem_bucket_from (T : Nat) (items : List α) : ∀ (i idx : Nat) (h : idx < items.length),
    items.get ⟨idx, h⟩ ∈ bucket_from T ((i + idx) % T) i items := by
  induction items with
  | nil => intro i idx h; simp at h
  | cons a rest ih =>
    intro i idx h
    cases idx with
    | zero =>
      simp only [Nat.add_zero]
      rw [bucket_from, if_pos rfl]
      exact List.mem_cons_self _ _
    | succ m =>
      have hm : m < rest.length := by simpa using h
      have := ih (i + 1) m hm
      rw [show i + 1 + m = i + (m + 1) from by omega] at this
      rw [bucket_from]
      split
      · exact List.mem_cons_of_mem _ this
      · exact this

theorem replicate_getD_nil (T r : Nat) : (List.replicate T ([] : List α)).getD r [] = [] := by
  rw [List.getD_eq_getElem?_getD, List.getElem?_replicate]
  split <;> rfl

/-- C8: for every input list and every positive thread count `T`,
`distribute_items` partitions the items round-robin into `T` buckets: bucket
`r` is exactly the items at input positions `≡ r (mod T)` in input order, the
item at position `i` is in bucket `i mod T`, and the concatenation of all
buckets is a permutation of the input (so the buckets are an exact
partition).  With `T = 0` and a non-empty input Python raises
`ZeroDivisionError`, so the claim is read over positive thread counts. -/
theorem claim_C8 {α : Type} (items : List α) (T : Nat) (hT : 0 < T) :
    ∃ buckets : List (List α),
      distribute_items items T = some buckets ∧
      buckets.length = T ∧
      (∀ r, r < T → buckets.getD r []
        = ((List.enumFrom 0 items).filter (fun p => p.1 % T == r)).map Prod.snd) ∧
      buckets.flatten.Perm items ∧
      (∀ idx (h : idx < items.length), items.get ⟨idx, h⟩ ∈ buckets.getD (idx % T) []) := by
  have hT' : T ≠ 0 := by omega
  have hdist : distribute_items items T
      = some ((List.range T).map (fun r => bucket_from T r 0 items)) := by
    rw [distribute_items, di_loop_eq items T 0 _ hT' (by simp)]
    congr 1
    apply List.map_congr_left
    intro r _
    rw [replicate_getD_nil, List.nil_append]
  refine ⟨(List.range T).map (fun r => bucket_from T r 0 items), hdist, by simp, ?_, ?_, ?_⟩
  · intro r hr
    have : ((List.range T).map (fun r => bucket_from T r 0 items)).getD r []
        = bucket_from T r 0 items := by
      rw [List.getD_eq_getElem?_getD, List.getElem?_map, List.getElem?_range hr]
      rfl
    rw [this, bucket_from_eq_filter]
  · exact join_buckets_perm T hT' items 0
  · intro idx h
    have hmem := mem_bucket_from T items 0 idx h
    rw [Nat.zero_add] at hmem
    have : ((List.range T).map (fun r => bucket_from T r 0 items)).getD (idx % T) []
        = bucket_from T (idx % T) 0 items := by
      rw [List.getD_eq_getElem?_getD, List.getElem?_map,
        List.getElem?_range (Nat.mod_lt _ (by omega))]
      rfl
    rw [this]
    exact hmem

/-- Witness for C8 on `items = [10, 20, 30, 40, 50]`, `T = 2`. -/
theorem claim_C8_witness :
    (0 : Nat) < 2 ∧
    ∃ buckets : List (List Nat),
      distribute_items [10, 20, 30, 40, 50] 2 = some buckets ∧
      buckets.length = 2 ∧
      (∀ r, r < 2 → buckets.getD r []
        = ((List.enumFrom 0 [10, 20, 30, 40, 50]).filter (fun p => p.1 % 2 == r)).map Prod.snd) ∧
      buckets.flatten.Perm [10, 20, 30, 40, 50] ∧
      (∀ idx (h : idx < ([10, 20, 30, 40, 50] : List Nat).length),
        ([10, 20, 30, 40, 50] : List Nat).get ⟨idx, h⟩ ∈ buckets.getD (idx % 2) []) :=
  ⟨by decide, claim_C8 [10, 20, 30, 40, 50] 2 (by decide)⟩

/-! ### `_parse_scramble_data` and the record selection of `descramble` -/

/-- The two key-code types `DESCRAMBLE_KEY_TYPE1` / `DESCRAMBLE_KEY_TYPE2`. -/
inductive KeyType where
  | t1
  | t2
deriving DecidableEq

/-- The per-variant state built by `_parse_scramble_data`: `self._types`
(one entry per slot) and the three compacted lists `self._t1_parsed`,
`self._t2_parsed_ctbl`, `self._t2_parsed_ptbl` (entries only for slots of the
matching variant). -/
structure ScrambleState where
  types : List KeyType
  t1_parsed : List Type1Parsed
  t2_parsed_ctbl : List Type2Parsed
  t2_parsed_ptbl : List Type2Parsed
deriving DecidableEq

/-- The loop of `_parse_scramble_data` over `range(len(self._ctbl))`:
dispatch on the first characters (61 is `=`), parse, check the type-2
`ndx`/`ndy` agreement, and append to the per-variant lists.  Every raised
exception — `IndexError` on an empty slot string or a too-short `ptbl`,
`ValueError` on an unknown key type or failed parse — is modelled as `none`. -/
def psd_loop : List (List Nat) → List (List Nat) → Option ScrambleState
  | [], _ => some ⟨[], [], [], []⟩
  | _ :: _, [] => none
  | cb :: cs, pb :: ps =>
    match cb, pb with
    | [], _ => none
    | _, [] => none
    | c0 :: _, p0 :: _ =>
      if c0 = 61 ∧ p0 = 61 then
        match parse_type_1 cb pb with
        | none => none
        | some t1p =>
          match psd_loop cs ps with
          | none => none
          | some st =>
            some ⟨KeyType.t1 :: st.types, t1p :: st.t1_parsed,
              st.t2_parsed_ctbl, st.t2_parsed_ptbl⟩
      else if is_digit_code c0 ∧ is_digit_code p0 then
        match parse_type_2 cb, parse_type_2 pb with
        | some cp, some pp =>
          if cp.ndx ≠ pp.ndx ∨ cp.ndy ≠ pp.ndy then none
          else
            match psd_loop cs ps with
            | none => none
            | some st =>
              some ⟨KeyType.t2 :: st.types, st.t1_parsed,
                cp :: st.t2_parsed_ctbl, pp :: st.t2_parsed_ptbl⟩
        | _, _ => none
      else none

/-- `BinBDescrambler._parse_scramble_data()` on the decrypted
`(ctbl, ptbl)` pair. -/
def parse_scramble_data (ctbl ptbl : List (List Nat)) : Option ScrambleState :=
  psd_loop ctbl ptbl

/-- The pair of records `BinBDescrambler.descramble` hands to the rectangle
generator of the selected variant. -/
inductive LookupResult where
  | t1 : Type1Parsed → Type1Parsed → LookupResult
  | t2 : Type2Parsed → Type2Parsed → LookupResult
deriving DecidableEq

/-- The record-selection step of `BinBDescrambler.descramble(filename, ...)`:
`key_type = self._types[c_index]`, then the type-1 generator reads
`self._t1_parsed[c_index]` and `self._t1_parsed[p_index]`, the type-2
generator `self._t2_parsed_ctbl[c_index]` and `self._t2_parsed_ptbl[p_index]`.
`none` models the `IndexError` on out-of-range indexing of the compacted
per-variant lists. -/
def descramble_lookup (st : ScrambleState) (filename : List Nat) : Option LookupResult :=
  let cp := calculate_descramble_index filename
  match st.types[cp.1]? with
  | none => none
  | some KeyType.t1 =>
    match st.t1_parsed[cp.1]?, st.t1_parsed[cp.2]? with
    | some a, some b => some (LookupResult.t1 a b)
    | _, _ => none
  | some KeyType.t2 =>
    match st.t2_parsed_ctbl[cp.1]?, st.t2_parsed_ptbl[cp.2]? with
    | some a, some b => some (LookupResult.t2 a b)
    | _, _ => none

/-- Occurrences of a key type in the slot-type list. -/
def count_type (t : KeyType) : List KeyType → Nat
  | [] => 0
  | k :: rest => (if k = t then 1 else 0) + count_type t rest

theorem count_type_le (t : KeyType) (l : List KeyType) : count_type t l ≤ l.length := by
  induction l with
  | nil => exact Nat.le_refl 0
  | cons x xs ih =>
    rw [count_type, List.length_cons]
    split <;> omega

theorem count_type_lt (t : KeyType) (l : List KeyType) : ∀ (k : KeyType) (i : Nat),
    l[i]? = some k → k ≠ t → count_type t l < l.length := by
  induction l with
  | nil => intro k i hget _; cases hget
  | cons hd tl ih =>
    intro k i hget hne
    have hle : count_type t tl ≤ tl.length := count_type_le t tl
    cases i with
    | zero =>
      have hk : k = hd := by
        rw [List.getElem?_cons_zero] at hget
        exact (Option.some.inj hget).symm
      subst hk
      rw [count_type, if_neg hne]
      simpa using Nat.lt_succ_of_le hle
    | succ n =>
      have hget' : tl[n]? = some k := by simpa using hget
      have := ih k n hget' hne
      rw [count_type, List.length_cons]
      split <;> omega

theorem psd_loop_cons (cb pb : List Nat) (cs ps : List (List Nat)) (st : ScrambleState)
    (hp : psd_loop (cb :: cs) (pb :: ps) = some st) :
    (∃ t1p st', parse_type_1 cb pb = some t1p ∧ psd_loop cs ps = some st' ∧
       st = ⟨KeyType.t1 :: st'.types, t1p :: st'.t1_parsed,
         st'.t2_parsed_ctbl, st'.t2_parsed_ptbl⟩) ∨
    (∃ cp pp st', parse_type_2 cb = some cp ∧ parse_type_2 pb = some pp ∧
       psd_loop cs ps = some st' ∧
       st = ⟨KeyType.t2 :: st'.types, st'.t1_parsed,
         cp :: st'.t2_parsed_ctbl, pp :: st'.t2_parsed_ptbl⟩) := by
  rcases cb with _ | ⟨c0, cbr⟩
  · simp only [psd_loop] at hp
    exact Option.noConfusion hp
  rcases pb with _ | ⟨p0, pbr⟩
  · simp only [psd_loop] at hp
    exact Option.noConfusion hp
  simp only [psd_loop] at hp
  split at hp
  · rcases h1 : parse_type_1 (c0 :: cbr) (p0 :: pbr) with _ | t1p <;> rw [h1] at hp
    · cases hp
    rcases hr : psd_loop cs ps with _ | st' <;> rw [hr] at hp
    · cases hp
    cases hp
    exact Or.inl ⟨t1p, st', rfl, rfl, rfl⟩
  · split at hp
    · split at hp
      · rename_i cp pp h2 h3
        split at hp
        · cases hp
        rcases hr : psd_loop cs ps with _ | st' <;> rw [hr] at hp
        · cases hp
        cases hp
        exact Or.inr ⟨cp, pp, st', h2, h3, rfl, rfl⟩
      · cases hp
    · cases hp

theorem psd_loop_lengths : ∀ (cs ps : List (List Nat)) (st : ScrambleState),
    psd_loop cs ps = some st →
    st.types.length = cs.length ∧
    st.t1_parsed.length = count_type KeyType.t1 st.types ∧
    st.t2_parsed_ctbl.length = count_type KeyType.t2 st.types ∧
    st.t2_parsed_ptbl.length = count_type KeyType.t2 st.types := by
  intro cs
  induction cs with
  | nil =>
    intro ps st hp
    simp only [psd_loop] at hp
    cases hp
    simp [count_type]
  | cons cb cs ih =>
    intro ps st hp
    rcases ps with _ | ⟨pb, ps'⟩
    · simp only [psd_loop] at hp
      exact Option.noConfusion hp
    rcases psd_loop_cons cb pb cs ps' st hp with
      ⟨t1p, st', _, hr, rfl⟩ | ⟨cp, pp, st', _, _, hr, rfl⟩ <;>
      obtain ⟨l1, l2, l3, l4⟩ := ih ps' st' hr <;>
      simp [count_type, l1, l2, l3, l4] <;> omega

theorem psd_loop_uniform_t1 : ∀ (cs ps : List (List Nat)) (st : ScrambleState),
    psd_loop cs ps = some st → (∀ k ∈ st.types, k = KeyType.t1) →
    ∀ i, i < cs.length →
      ∃ a, parse_type_1 (cs.getD i []) (ps.getD i []) = some a ∧
        st.t1_parsed[i]? = some a := by
  intro cs
  induction cs with
  | nil => intro ps st _ _ i hi; simp at hi
  | cons cb cs ih =>
    intro ps st hp huni i hi
    rcases ps with _ | ⟨pb, ps'⟩
    · simp only [psd_loop] at hp
      exact Option.noConfusion hp
    rcases psd_loop_cons cb pb cs ps' st hp with
      ⟨t1p, st', h1, hr, rfl⟩ | ⟨cp, pp, st', _, _, hr, rfl⟩
    · cases i with
      | zero => exact ⟨t1p, h1, by simp⟩
      | succ n =>
        have hn : n < cs.length := by simpa using hi
        have huni' : ∀ k ∈ st'.types, k = KeyType.t1 := by
          intro k hk
          exact huni k (List.mem_cons_of_mem _ hk)
        obtain ⟨a, ha, hget⟩ := ih ps' st' hr huni' n hn
        exact ⟨a, by simpa using ha, by simpa using hget⟩
    · exact absurd (huni KeyType.t2 (List.mem_cons_self _ _)) (by intro hcon; cases hcon)

theorem psd_loop_uniform_t2 : ∀ (cs ps : List (List Nat)) (st : ScrambleState),
    psd_loop cs ps = some st → (∀ k ∈ st.types, k = KeyType.t2) →
    ∀ i, i < cs.length →
      ∃ a b, parse_type_2 (cs.getD i []) = some a ∧ parse_type_2 (ps.getD i []) = some b ∧
        st.t2_parsed_ctbl[i]? = some a ∧ st.t2_parsed_ptbl[i]? = some b := by
  intro cs
  induction cs with
  | nil => intro ps st _ _ i hi; simp at hi
  | cons cb cs ih =>
    intro ps st hp huni i hi
    rcases ps with _ | ⟨pb, ps'⟩
    · simp only [psd_loop] at hp
      exact Option.noConfusion hp
    rcases psd_loop_cons cb pb cs ps' st hp with
      ⟨t1p, st', _, hr, rfl⟩ | ⟨cp, pp, st', h2, h3, hr, rfl⟩
    · exact absurd (huni KeyType.t1 (List.mem_cons_self _ _)) (by intro hcon; cases hcon)
    · cases i with
      | zero => exact ⟨cp, pp, h2, h3, by simp, by simp⟩
      | succ n =>
        have hn : n < cs.length := by simpa using hi
        have huni' : ∀ k ∈ st'.types, k = KeyType.t2 := by
          intro k hk
          exact huni k (List.mem_cons_of_mem _ hk)
        obtain ⟨a, b, ha, hb, hga, hgb⟩ := ih ps' st' hr huni' n hn
        exact ⟨a, b, by simpa using ha, by simpa using hb, by simpa using hga,
          by simpa using hgb⟩

theorem calculate_descramble_index_lt (filename : List Nat) :
    (calculate_descramble_index filename).1 < 8 ∧
    (calculate_descramble_index filename).2 < 8 := by
  rw [calculate_descramble_index]
  dsimp only
  omega

/-- C10: the per-variant lists built by `_parse_scramble_data` are compacted,
yet `descramble` indexes them with the slot indices `(c_index, p_index)` in
`[0, 8)` derived from the filename.  When the 8 slots mix both variants there
is a filename (e.g. `"07"`, selecting `c_index = 7`) whose lookup runs out of
range (`IndexError`); when all 8 slots share a variant, every filename's
lookup succeeds and returns exactly the records parsed from slots `c_index`
and `p_index`. -/
theorem claim_C10 (ctbl ptbl : List (List Nat)) (st : ScrambleState)
    (hp : parse_scramble_data ctbl ptbl = some st) (h8 : st.types.length = 8) :
    (((∃ i : Nat, st.types[i]? = some KeyType.t1) ∧
      (∃ j : Nat, st.types[j]? = some KeyType.t2)) →
       ∃ filename : List Nat, descramble_lookup st filename = none) ∧
    ((∀ k ∈ st.types, k = KeyType.t1) →
       ∀ filename : List Nat, ∃ a b,
         descramble_lookup st filename = some (LookupResult.t1 a b) ∧
         parse_type_1 (ctbl.getD (calculate_descramble_index filename).1 [])
           (ptbl.getD (calculate_descramble_index filename).1 []) = some a ∧
         parse_type_1 (ctbl.getD (calculate_descramble_index filename).2 [])
           (ptbl.getD (calculate_descramble_index filename).2 []) = some b) ∧
    ((∀ k ∈ st.types, k = KeyType.t2) →
       ∀ filename : List Nat, ∃ a b,
         descramble_lookup st filename = some (LookupResult.t2 a b) ∧
         parse_type_2 (ctbl.getD (calculate_descramble_index filename).1 []) = some a ∧
         parse_type_2 (ptbl.getD (calculate_descramble_index filename).2 []) = some b) := by
  obtain ⟨hl1, hl2, hl3, hl4⟩ := psd_loop_lengths ctbl ptbl st hp
  have hct8 : ctbl.length = 8 := by omega
  refine ⟨?_, ?_, ?_⟩
  · rintro ⟨⟨i, hi⟩, ⟨j, hj⟩⟩
    refine ⟨[48, 55], ?_⟩
    have hcp : calculate_descramble_index [48, 55] = (7, 0) := by decide
    have h7 : (7 : Nat) < st.types.length := by omega
    have hk7 : st.types[7]? = some st.types[7] := List.getElem?_eq_getElem h7
    rw [descramble_lookup, hcp]
    cases hk : st.types[7] with
    | t1 =>
      rw [hk] at hk7
      have hcnt : count_type KeyType.t1 st.types < 8 :=
        h8 ▸ count_type_lt KeyType.t1 st.types KeyType.t2 j hj (by intro hcon; cases hcon)
      have hnone : st.t1_parsed[(7 : Nat)]? = none := by
        apply List.getElem?_eq_none
        omega
      dsimp only
      rw [hk7, hnone]
    | t2 =>
      rw [hk] at hk7
      have hcnt : count_type KeyType.t2 st.types < 8 :=
        h8 ▸ count_type_lt KeyType.t2 st.types KeyType.t1 i hi (by intro hcon; cases hcon)
      have hnone : st.t2_parsed_ctbl[(7 : Nat)]? = none := by
        apply List.getElem?_eq_none
        omega
      dsimp only
      rw [hk7, hnone]
  · intro huni filename
    obtain ⟨hc8, hp8⟩ := calculate_descramble_index_lt filename
    have hcty : st.types[(calculate_descramble_index filename).1]?
        = some KeyType.t1 := by
      have hlt : (calculate_descramble_index filename).1 < st.types.length := by omega
      rw [List.getElem?_eq_getElem hlt]
      exact congrArg some (huni _ (List.getElem_mem hlt))
    obtain ⟨a, ha, hga⟩ := psd_loop_uniform_t1 ctbl ptbl st hp huni
      (calculate_descramble_index filename).1 (by omega)
    obtain ⟨b, hb, hgb⟩ := psd_loop_uniform_t1 ctbl ptbl st hp huni
      (calculate_descramble_index filename).2 (by omega)
    refine ⟨a, b, ?_, ha, hb⟩
    rw [descramble_lookup, hcty, hga, hgb]
  · intro huni filename
    obtain ⟨hc8, hp8⟩ := calculate_descramble_index_lt filename
    have hcty : st.types[(calculate_descramble_index filename).1]?
        = some KeyType.t2 := by
      have hlt : (calculate_descramble_index filename).1 < st.types.length := by omega
      rw [List.getElem?_eq_getElem hlt]
      exact congrArg some (huni _ (List.getElem_mem hlt))
    obtain ⟨a, b1, ha, hb1, hga, hgb1⟩ := psd_loop_uniform_t2 ctbl ptbl st hp huni
      (calculate_descramble_index filename).1 (by omega)
    obtain ⟨a2, b, ha2, hb, hga2, hgb⟩ := psd_loop_uniform_t2 ctbl ptbl st hp huni
      (calculate_descramble_index filename).2 (by omega)
    refine ⟨a, b, ?_, ha, hb⟩
    rw [descramble_lookup, hcty, hga, hgb]

/-- The `c`-slot `"=1-1+0-AAA"`. -/
def t1c_slot : List Nat := [61, 49, 45, 49, 43, 48, 45, 65, 65, 65]

/-- The `p`-slot `"=1-1-0-AAA"`. -/
def t1p_slot : List Nat := [61, 49, 45, 49, 45, 48, 45, 65, 65, 65]

/-- The Tile slot `"1-1-aa"`. -/
def t2_slot : List Nat := [49, 45, 49, 45, 97, 97]

/-- A mixed table: slots 0–6 Grid, slot 7 Tile. -/
def mixed_ctbl : List (List Nat) :=
  [t1c_slot, t1c_slot, t1c_slot, t1c_slot, t1c_slot, t1c_slot, t1c_slot, t2_slot]

def mixed_ptbl : List (List Nat) :=
  [t1p_slot, t1p_slot, t1p_slot, t1p_slot, t1p_slot, t1p_slot, t1p_slot, t2_slot]

/-- The parsed state of the mixed table. -/
def mixed_state : ScrambleState :=
  ⟨[KeyType.t1, KeyType.t1, KeyType.t1, KeyType.t1, KeyType.t1, KeyType.t1, KeyType.t1,
    KeyType.t2],
   List.replicate 7 ⟨1, 1, [65, 65, 65], [65, 65, 65], 0⟩,
   [⟨1, 1, [⟨0, 0, 1, 1⟩]⟩], [⟨1, 1, [⟨0, 0, 1, 1⟩]⟩]⟩

/-- Witness for C10 on a book mixing seven Grid slots and one Tile slot:
the lookup for filename `"07"` (codes `[48, 55]`, `c_index = 7`) is out of
range. -/
theorem claim_C10_witness :
    parse_scramble_data mixed_ctbl mixed_ptbl = some mixed_state ∧
    ∃ filename : List Nat, descramble_lookup mixed_state filename = none :=
  have hp : parse_scramble_data mixed_ctbl mixed_ptbl = some mixed_state := by decide
  ⟨hp, (claim_C10 mixed_ctbl mixed_ptbl mixed_state hp (by decide)).1
    ⟨⟨0, by decide⟩, ⟨7, by decide⟩⟩⟩

end Mindl
